import Mathlib

/-!
Verification of the distributed-transaction resilience subsystem of the
MediQ API gateway: the saga coordinator with reverse-order compensation
(`saga-coordinator.service.ts`), the per-service circuit breaker
(`circuit-breaker.service.ts`), the two event-store variants
(`event-store.service.ts` and the unnamed variant with a global log), and
the standalone compensation planner.

The TypeScript services are shallowly embedded: opaque async closures
(`step.action()`, `step.compensationAction()`, remote compensation calls)
are represented by their observable outcome for the run being modelled
(a `Bool` success flag, or a script `Nat → Bool` of per-attempt outcomes);
`Date` values are naturals (milliseconds); `Map` objects are
insertion-ordered association lists, matching JavaScript Map iteration
order; JS truthiness of optional numbers/strings (`if (filter.fromVersion)`)
is modelled explicitly.
-/

namespace Saga

/-- `SagaStatus` from saga-coordinator.service.ts. -/
inductive SagaStatus
  | STARTED
  | RUNNING
  | IN_PROGRESS
  | COMPENSATING
  | COMPLETED
  | FAILED
  | COMPENSATED
deriving DecidableEq, Repr

/-- The caller-supplied part of a step (`Omit<SagaStep, 'id'|'executed'|'compensated'>`):
its name plus the outcomes of its two opaque closures for the run being
modelled (`actionOk` = `action()` resolves, `compOk` = `compensationAction()`
resolves). -/
structure StepSpec where
  name : String
  actionOk : Bool
  compOk : Bool
deriving DecidableEq, Repr

/-- `SagaStep` from saga-coordinator.service.ts.  `hasResult` models
`result !== undefined` and `hasError` models `error !== undefined`. -/
structure SagaStep where
  name : String
  actionOk : Bool
  compOk : Bool
  executed : Bool
  compensated : Bool
  hasResult : Bool
  hasError : Bool
deriving DecidableEq, Repr

/-- `SagaDefinition` from saga-coordinator.service.ts (times as naturals). -/
structure SagaDefinition where
  name : String
  steps : List SagaStep
  status : SagaStatus
  startTime : Nat
  endTime : Option Nat
deriving DecidableEq, Repr

/-- Event types appended by the coordinator (payloads reduced to the step name). -/
inductive SagaEvent
  | SagaStarted
  | StepCompleted (stepName : String)
  | StepFailed (stepName : String)
  | SagaCompleted
  | SagaFailed
  | StepCompensated (stepName : String)
  | CompensationFailed (stepName : String)
  | SagaCompensated
  | SagaRetried
deriving DecidableEq, Repr

/-- `startSaga` builds each step with `executed: false, compensated: false`. -/
def freshStep (sp : StepSpec) : SagaStep :=
  { name := sp.name, actionOk := sp.actionOk, compOk := sp.compOk,
    executed := false, compensated := false, hasResult := false, hasError := false }

/-- A step after its action succeeded (`step.result = await step.action();
step.executed = true`). -/
def execOk (s : SagaStep) : SagaStep :=
  { s with executed := true, hasResult := true }

/-- A step whose action threw (`step.error = error`), aborting the loop. -/
def execFail (s : SagaStep) : SagaStep :=
  { s with hasError := true }

/-- The forward `for (const step of saga.steps)` loop of `executeSaga`:
returns the updated steps, the events appended, the names of the steps whose
`action()` was invoked (in invocation order), and whether every action
succeeded.  On the first failing action the loop aborts (`throw error`). -/
def forwardLoop : List SagaStep → List SagaStep × List SagaEvent × List String × Bool
  | [] => ([], [], [], true)
  | step :: rest =>
    if step.actionOk then
      let r := forwardLoop rest
      (execOk step :: r.1, .StepCompleted step.name :: r.2.1,
        step.name :: r.2.2.1, r.2.2.2)
    else
      (execFail step :: rest, [.StepFailed step.name], [step.name], false)

/-- The event appended for one step inside `compensateSaga`'s loop. -/
def compEventOf (s : SagaStep) : SagaEvent :=
  if s.compOk then .StepCompensated s.name else .CompensationFailed s.name

/-- Effect of `compensateSaga`'s loop on one step object: `compensated = true`
is only reached when `compensationAction()` resolved; a throwing compensation
leaves the flag untouched (the `catch` only logs and appends an event). -/
def compUpdate (s : SagaStep) : SagaStep :=
  if s.executed && s.compOk then { s with compensated := true } else s

/-- `compensateSaga`: iterates the executed steps in reverse order, invoking
each `compensationAction()`; a compensation failure is caught, logged and
recorded, and the loop continues; afterwards the saga is marked
`COMPENSATED` with `endTime` set.  Returns the updated saga, the appended
events, and the names of the steps whose compensation was invoked, in
invocation order. -/
def compensateSaga (saga : SagaDefinition) (now : Nat) :
    SagaDefinition × List SagaEvent × List String :=
  let executedSteps := (saga.steps.filter (·.executed)).reverse
  ( { saga with
      steps := saga.steps.map compUpdate,
      status := .COMPENSATED, endTime := some now },
    executedSteps.map compEventOf ++ [.SagaCompensated],
    executedSteps.map (·.name) )

/-- Result of one run of `executeSaga`: the final saga, the appended events,
and the action/compensation invocation traces. -/
structure RunResult where
  saga : SagaDefinition
  events : List SagaEvent
  actInvoked : List String
  compInvoked : List String
deriving DecidableEq, Repr

/-- `executeSaga`: marks the saga `IN_PROGRESS` (overwritten by the terminal
status below), runs the forward loop; on full success marks `COMPLETED` with
`endTime` and appends `SagaCompleted`; on a step failure marks
`COMPENSATING`, appends `SagaFailed`, and runs `compensateSaga`. -/
def executeSaga (saga : SagaDefinition) (now : Nat) : RunResult :=
  let r := forwardLoop saga.steps
  if r.2.2.2 then
    { saga := { saga with steps := r.1, status := .COMPLETED, endTime := some now },
      events := r.2.1 ++ [.SagaCompleted], actInvoked := r.2.2.1, compInvoked := [] }
  else
    let sagaC : SagaDefinition := { saga with steps := r.1, status := .COMPENSATING }
    let c := compensateSaga sagaC now
    { saga := c.1, events := r.2.1 ++ .SagaFailed :: c.2.1,
      actInvoked := r.2.2.1, compInvoked := c.2.2 }

/-- `startSaga`: registers a fresh saga (`status: STARTED`, all flags false),
appends `SagaStarted`, and executes it. -/
def startSaga (name : String) (specs : List StepSpec) (now : Nat) : RunResult :=
  let saga : SagaDefinition :=
    { name := name, steps := specs.map freshStep, status := .STARTED,
      startTime := now, endTime := none }
  let r := executeSaga saga now
  { r with events := .SagaStarted :: r.events }

/-- The two `throw` sites of `retrySaga`. -/
inductive RetryError
  | sagaNotFound
  | cannotRetryInStatus (status : SagaStatus)
deriving DecidableEq, Repr

/-- `saga.steps.forEach` reset inside `retrySaga`. -/
def resetStep (s : SagaStep) : SagaStep :=
  { s with executed := false, compensated := false, hasResult := false, hasError := false }

/-- The spec (name and closure outcomes) of an existing step. -/
def specOf (s : SagaStep) : StepSpec :=
  { name := s.name, actionOk := s.actionOk, compOk := s.compOk }

/-- `retrySaga`: throws when the saga is absent, or when its status is
neither `FAILED` nor `COMPENSATED`; otherwise resets every step's flags,
clears result/error, resets the saga to `STARTED`, records `SagaRetried`,
and re-invokes `executeSaga`. -/
def retrySaga (saga? : Option SagaDefinition) (now : Nat) : Except RetryError RunResult :=
  match saga? with
  | none => .error .sagaNotFound
  | some saga =>
    if saga.status ≠ .FAILED ∧ saga.status ≠ .COMPENSATED then
      .error (.cannotRetryInStatus saga.status)
    else
      let saga' : SagaDefinition :=
        { saga with
          steps := saga.steps.map resetStep, status := .STARTED,
          startTime := now, endTime := none }
      let r := executeSaga saga' now
      .ok { r with events := .SagaRetried :: r.events }

end Saga

namespace CircuitBreaker

/-- `CircuitState` from circuit-breaker.service.ts. -/
inductive CircuitState
  | CLOSED
  | OPEN
  | HALF_OPEN
deriving DecidableEq, Repr

/-- `CircuitBreakerStats` (times as naturals, optional fields as `Option`). -/
structure CircuitBreakerStats where
  failureCount : Nat
  successCount : Nat
  lastFailureTime : Option Nat
  state : CircuitState
  nextAttempt : Option Nat
deriving DecidableEq, Repr

/-- `CircuitBreakerConfig` from resilience.config.ts. -/
structure CircuitBreakerConfig where
  failureThreshold : Nat
  successThreshold : Nat
  timeout : Nat
deriving DecidableEq, Repr

/-- `getOrCreateCircuit`'s fresh record. -/
def newCircuit : CircuitBreakerStats :=
  { failureCount := 0, successCount := 0, lastFailureTime := none,
    state := .CLOSED, nextAttempt := none }

/-- `isCircuitOpen`: CLOSED and HALF_OPEN pass through; OPEN is still
rejecting while `circuit.nextAttempt && Date.now() < circuit.nextAttempt`
(JS truthiness: a present-but-zero `nextAttempt` is falsy), otherwise the
circuit transitions to HALF_OPEN with `successCount = 0` and the call is
allowed.  Returns the check result together with the (possibly mutated)
circuit. -/
def isCircuitOpen (now : Nat) (c : CircuitBreakerStats) :
    Bool × CircuitBreakerStats :=
  match c.state with
  | .CLOSED => (false, c)
  | .OPEN =>
    match c.nextAttempt with
    | some t =>
      if t ≠ 0 ∧ now < t then (true, c)
      else (false, { c with state := .HALF_OPEN, successCount := 0 })
    | none => (false, { c with state := .HALF_OPEN, successCount := 0 })
  | .HALF_OPEN => (false, c)

/-- `onSuccess`: increments `successCount`; while HALF_OPEN, reaching
`successThreshold` closes the circuit and zeroes both counters; while
CLOSED, a success resets `failureCount`. -/
def onSuccess (cfg : CircuitBreakerConfig) (c : CircuitBreakerStats) :
    CircuitBreakerStats :=
  let c := { c with successCount := c.successCount + 1 }
  match c.state with
  | .HALF_OPEN =>
    if cfg.successThreshold ≤ c.successCount then
      { c with state := .CLOSED, failureCount := 0, successCount := 0 }
    else c
  | .CLOSED => { c with failureCount := 0 }
  | .OPEN => c

/-- `onFailure`: increments `failureCount`, stamps `lastFailureTime`; from
CLOSED or HALF_OPEN, reaching `failureThreshold` opens the circuit with
`nextAttempt = now + timeout`. -/
def onFailure (cfg : CircuitBreakerConfig) (now : Nat) (c : CircuitBreakerStats) :
    CircuitBreakerStats :=
  let c := { c with failureCount := c.failureCount + 1, lastFailureTime := some now }
  if (c.state = .CLOSED ∨ c.state = .HALF_OPEN) ∧ cfg.failureThreshold ≤ c.failureCount then
    { c with state := .OPEN, nextAttempt := some (now + cfg.timeout) }
  else c

/-- What `execute` returned to its caller. -/
inductive ExecOutcome
  | opResult
  | fallbackResult
  | circuitOpenError (serviceKey : String)
  | opError
deriving DecidableEq, Repr

/-- Result of one `execute` call: what surfaced to the caller, whether the
operation closure was invoked, and the circuit afterwards. -/
structure ExecResult where
  outcome : ExecOutcome
  opInvoked : Bool
  circuit : CircuitBreakerStats
deriving DecidableEq, Repr

/-- `execute(serviceKey, operation, fallback?)`.  With no config for the key
the breaker is bypassed (`return operation()`).  Otherwise: if the circuit
is open the operation is NOT invoked and either the fallback runs or an
`Error` naming the service key is thrown; if allowed through, the operation
runs (`opOk` is its outcome), feeding `onSuccess`/`onFailure`; after a
failure, `fallback && this.isCircuitOpen(...)` decides (short-circuiting:
the second open-check only happens when a fallback was supplied) whether the
fallback result or the operation's error surfaces. -/
def execute (cfg? : Option CircuitBreakerConfig) (serviceKey : String) (now : Nat)
    (opOk : Bool) (hasFallback : Bool) (c : CircuitBreakerStats) : ExecResult :=
  match cfg? with
  | none =>
    { outcome := if opOk then .opResult else .opError, opInvoked := true, circuit := c }
  | some cfg =>
    let r := isCircuitOpen now c
    if r.1 then
      if hasFallback then
        { outcome := .fallbackResult, opInvoked := false, circuit := r.2 }
      else
        { outcome := .circuitOpenError serviceKey, opInvoked := false, circuit := r.2 }
    else
      if opOk then
        { outcome := .opResult, opInvoked := true, circuit := onSuccess cfg r.2 }
      else
        let c2 := onFailure cfg now r.2
        if hasFallback then
          let r2 := isCircuitOpen now c2
          if r2.1 then { outcome := .fallbackResult, opInvoked := true, circuit := r2.2 }
          else { outcome := .opError, opInvoked := true, circuit := r2.2 }
        else { outcome := .opError, opInvoked := true, circuit := c2 }

/-- `resetCircuit`: force CLOSED and clear every counter and timestamp. -/
def resetCircuit (c : CircuitBreakerStats) : CircuitBreakerStats :=
  { c with
    state := .CLOSED, failureCount := 0, successCount := 0,
    lastFailureTime := none, nextAttempt := none }

/-- `n` consecutive `execute` calls whose operation fails, all at time `t`,
with no fallback, against a configured key. -/
def iterFail (cfg : CircuitBreakerConfig) (key : String) (t : Nat) :
    Nat → CircuitBreakerStats → CircuitBreakerStats
  | 0, c => c
  | n + 1, c => iterFail cfg key t n (execute (some cfg) key t false false c).circuit

/-- `n` consecutive `onSuccess` applications (successful operations). -/
def iterSuccess (cfg : CircuitBreakerConfig) : Nat → CircuitBreakerStats → CircuitBreakerStats
  | 0, c => c
  | n + 1, c => iterSuccess cfg n (onSuccess cfg c)

/-- Circuit records reachable through the service's operations for a fixed
per-key config: creation, the open-check (which may transition OPEN to
HALF_OPEN), success/failure accounting, and the administrative reset. -/
inductive Reachable (cfg : CircuitBreakerConfig) : CircuitBreakerStats → Prop
  | new : Reachable cfg newCircuit
  | check (now : Nat) (c : CircuitBreakerStats) :
      Reachable cfg c → Reachable cfg (isCircuitOpen now c).2
  | success (c : CircuitBreakerStats) :
      Reachable cfg c → Reachable cfg (onSuccess cfg c)
  | failure (now : Nat) (c : CircuitBreakerStats) :
      Reachable cfg c → Reachable cfg (onFailure cfg now c)
  | reset (c : CircuitBreakerStats) :
      Reachable cfg c → Reachable cfg (resetCircuit c)

end CircuitBreaker

/-- Lookup in an insertion-ordered association list modelling a JS `Map`
of event lists: `map.get(k) || []`. -/
def lookupAgg {α : Type} : List (String × List α) → String → List α
  | [], _ => []
  | (k, v) :: rest, a => if k = a then v else lookupAgg rest a

/-- `map.get(k)!.push(e)` after `if (!map.has(k)) map.set(k, [])`: append to
the key's bucket, creating it at the end (JS Map insertion order) if absent. -/
def pushAgg {α : Type} : List (String × List α) → String → α → List (String × List α)
  | [], a, e => [(a, [e])]
  | (k, v) :: rest, a, e =>
    if k = a then (k, v ++ [e]) :: rest else (k, v) :: pushAgg rest a e

namespace EventStore005

/-- `Event` of the unnamed event-store variant (the one with a global log):
`metadata.timestamp` and `metadata.version` are flattened into the record;
`metadata.userId`/`correlationId` are never read by the code under claim. -/
structure Ev where
  id : Nat
  aggregateId : String
  eventType : String
  data : String
  timestamp : Nat
  version : Nat
deriving DecidableEq, Repr

/-- The service state: the global ordered log `events` and the per-aggregate
index `eventsByAggregate`. -/
structure EventStoreState where
  events : List Ev
  eventsByAggregate : List (String × List Ev)
deriving DecidableEq, Repr

def emptyStore : EventStoreState := { events := [], eventsByAggregate := [] }

/-- `getNextVersion`: current per-aggregate event count + 1. -/
def getNextVersion (s : EventStoreState) (aggregateId : String) : Nat :=
  (lookupAgg s.eventsByAggregate aggregateId).length + 1

/-- `saveEvent(aggregateId, eventType, data, metadata = {})`: builds
`metadata: { timestamp: new Date(), version: await this.getNextVersion(...),
...metadata }` — the caller-supplied metadata is spread AFTER the computed
fields, so an explicit `metadata.version` (as passed by the health monitor
and the compensation planner) overrides the per-aggregate counter.  The
event is pushed to the global log and to the aggregate's bucket. -/
def saveEvent (s : EventStoreState) (newId : Nat) (aggregateId eventType data : String)
    (now : Nat) (metaVersion : Option Nat) : EventStoreState :=
  let version :=
    match metaVersion with
    | some v => v
    | none => getNextVersion s aggregateId
  let e : Ev :=
    { id := newId, aggregateId := aggregateId, eventType := eventType,
      data := data, timestamp := now, version := version }
  { events := s.events ++ [e],
    eventsByAggregate := pushAgg s.eventsByAggregate aggregateId e }

/-- `EventFilter` of this variant. -/
structure EventFilter where
  aggregateId : Option String
  eventType : Option String
  fromVersion : Option Nat
  toVersion : Option Nat
  fromDate : Option Nat
  toDate : Option Nat
deriving DecidableEq, Repr

/-- The empty filter `{}`. -/
def noFilter : EventFilter :=
  { aggregateId := none, eventType := none, fromVersion := none,
    toVersion := none, fromDate := none, toDate := none }

/-- The filter `{ aggregateId }`. -/
def filterByAggregate (a : String) : EventFilter :=
  { noFilter with aggregateId := some a }

/-- `getEvents(filter = {})`: starts from the per-aggregate bucket when
`filter.aggregateId` is truthy (a present, non-empty string), else from the
global log; applies the remaining predicates (numeric fields guarded by JS
truthiness, so an explicit 0 disables them; `Date` objects are always
truthy); finally sorts by `metadata.version` ascending.  `Array.prototype.sort`
is a stable sort; `List.insertionSort` with a total preorder comparator is
stable too and so computes the same result. -/
def getEvents (s : EventStoreState) (f : EventFilter) : List Ev :=
  let base : List Ev :=
    match f.aggregateId with
    | some a => if a ≠ "" then lookupAgg s.eventsByAggregate a else s.events
    | none => s.events
  let l1 : List Ev :=
    match f.eventType with
    | some ty => if ty ≠ "" then base.filter (fun e => e.eventType = ty) else base
    | none => base
  let l2 : List Ev :=
    match f.fromVersion with
    | some v => if v ≠ 0 then l1.filter (fun e => v ≤ e.version) else l1
    | none => l1
  let l3 : List Ev :=
    match f.toVersion with
    | some v => if v ≠ 0 then l2.filter (fun e => e.version ≤ v) else l2
    | none => l2
  let l4 : List Ev :=
    match f.fromDate with
    | some d => l3.filter (fun e => d ≤ e.timestamp)
    | none => l3
  let l5 : List Ev :=
    match f.toDate with
    | some d => l4.filter (fun e => e.timestamp ≤ d)
    | none => l4
  List.insertionSort (fun a b => a.version ≤ b.version) l5

/-- `getAllEvents(filter = {})` is an alias for `getEvents` in this variant —
so it, too, sorts by per-aggregate version, not by timestamp. -/
def getAllEvents (s : EventStoreState) (f : EventFilter) : List Ev :=
  getEvents s f

/-- The `eventsByAggregate` rebuild loop of `cleanupOldEvents`: clear the
map, then push every surviving event into its bucket in global-log order. -/
def rebuildByAggregate (l : List Ev) : List (String × List Ev) :=
  l.foldl (fun m e => pushAgg m e.aggregateId e) []

/-- `cleanupOldEvents(olderThanDays)`: keeps only events with
`timestamp > cutoffDate` in the global log, then rebuilds the per-aggregate
index from the filtered log.  `cutoff` is the computed cutoff date. -/
def cleanupOldEvents (s : EventStoreState) (cutoff : Nat) : EventStoreState :=
  let kept := s.events.filter (fun e => cutoff < e.timestamp)
  { events := kept, eventsByAggregate := rebuildByAggregate kept }

/-- Store states reachable through the service's mutating operations. -/
inductive Reachable : EventStoreState → Prop
  | empty : Reachable emptyStore
  | save (newId : Nat) (a ty d : String) (now : Nat) (mv : Option Nat)
      (s : EventStoreState) : Reachable s → Reachable (saveEvent s newId a ty d now mv)
  | cleanup (cutoff : Nat) (s : EventStoreState) :
      Reachable s → Reachable (cleanupOldEvents s cutoff)

/-- Append-only histories in which no caller ever supplies an explicit
`metadata.version` for aggregate `a` (appends to other aggregates are
arbitrary, interleaved, and may override). -/
inductive AppendsVersioned (a : String) : EventStoreState → Prop
  | empty : AppendsVersioned a emptyStore
  | saveOwn (newId : Nat) (ty d : String) (now : Nat) (s : EventStoreState) :
      AppendsVersioned a s → AppendsVersioned a (saveEvent s newId a ty d now none)
  | saveOther (newId : Nat) (b ty d : String) (now : Nat) (mv : Option Nat)
      (s : EventStoreState) : b ≠ a →
      AppendsVersioned a s → AppendsVersioned a (saveEvent s newId b ty d now mv)

end EventStore005

namespace EventStoreSvc

/-- `Event` from event-store.service.ts.  Here `version` is part of the
caller-supplied `Omit<Event, 'id' | 'timestamp'>` — `appendEvent` does not
compute it. -/
structure Event where
  id : Nat
  aggregateId : String
  eventType : String
  eventData : String
  timestamp : Nat
  version : Nat
deriving DecidableEq, Repr

/-- `EventFilter` from event-store.service.ts. -/
structure EventFilter where
  aggregateId : Option String
  eventType : Option String
  fromTimestamp : Option Nat
  toTimestamp : Option Nat
  fromVersion : Option Nat
  toVersion : Option Nat
deriving DecidableEq, Repr

/-- State of this variant: the per-aggregate `Map` (there is no separate
global log) plus the pending flush buffer. -/
structure EventStoreState where
  events : List (String × List Event)
  pendingEvents : List Event
deriving DecidableEq, Repr

/-- `appendEvent`: stamps id and current time, pushes the event to the
pending batch and to its aggregate's bucket (version as supplied). -/
def appendEvent (s : EventStoreState) (newId : Nat) (aggregateId eventType eventData : String)
    (version : Nat) (now : Nat) : EventStoreState :=
  let e : Event :=
    { id := newId, aggregateId := aggregateId, eventType := eventType,
      eventData := eventData, timestamp := now, version := version }
  { events := pushAgg s.events aggregateId e,
    pendingEvents := s.pendingEvents ++ [e] }

/-- The conjunctive predicate of `getAllEvents`'s filter pass (each guard
subject to JS truthiness of the filter field). -/
def matchesFilter (f : EventFilter) (e : Event) : Bool :=
  (match f.aggregateId with
   | some a => if a ≠ "" then decide (e.aggregateId = a) else true
   | none => true) &&
  (match f.eventType with
   | some ty => if ty ≠ "" then decide (e.eventType = ty) else true
   | none => true) &&
  (match f.fromTimestamp with
   | some d => decide (d ≤ e.timestamp)
   | none => true) &&
  (match f.toTimestamp with
   | some d => decide (e.timestamp ≤ d)
   | none => true) &&
  (match f.fromVersion with
   | some v => if v ≠ 0 then decide (v ≤ e.version) else true
   | none => true) &&
  (match f.toVersion with
   | some v => if v ≠ 0 then decide (e.version ≤ v) else true
   | none => true)

/-- `getAllEvents(filter?)`: concatenates every aggregate's bucket (Map
iteration order), applies the filter pass when a filter is given, and sorts
by `timestamp.getTime()` ascending. -/
def getAllEvents (s : EventStoreState) (f? : Option EventFilter) : List Event :=
  let allEvents := (s.events.map Prod.snd).flatten
  let filtered :=
    match f? with
    | some f => allEvents.filter (matchesFilter f)
    | none => allEvents
  List.insertionSort (fun a b => a.timestamp ≤ b.timestamp) filtered

/-- `cleanupOldEvents()` of this variant: prunes each aggregate bucket to
events with `timestamp > cutoffDate` (this store has no global log to prune;
the pending buffer is untouched). -/
def cleanupOldEvents (s : EventStoreState) (cutoff : Nat) : EventStoreState :=
  { s with
    events := s.events.map (fun kv => (kv.1, kv.2.filter (fun e => cutoff < e.timestamp))) }

end EventStoreSvc

namespace Compensation

/-- `CompensationStatus` from the compensation pattern service. -/
inductive CompensationStatus
  | PENDING
  | EXECUTING
  | COMPLETED
  | FAILED
  | PARTIAL
deriving DecidableEq, Repr

/-- `CompensationAction` (parameters payload not modelled, it is opaque to
the executor). -/
structure CompensationAction where
  actionId : String
  serviceName : String
  method : String
  timeout : Nat
  retries : Nat
deriving DecidableEq, Repr

/-- `CompensationResult` (the `error?` message text and `executedAt`
wall-clock stamp are reduced to presence). -/
structure CompensationResult where
  actionId : String
  success : Bool
  hasError : Bool
deriving DecidableEq, Repr

/-- `addCompensationAction`'s defaulting: `options?.timeout || 30000` and
`options?.retries || 3` (JS falsiness: an explicit 0 also falls back). -/
def mkCompensationAction (actionId serviceName method : String)
    (timeout? retries? : Option Nat) : CompensationAction :=
  { actionId := actionId, serviceName := serviceName, method := method,
    timeout :=
      match timeout? with
      | some t => if t = 0 then 30000 else t
      | none => 30000,
    retries :=
      match retries? with
      | some r => if r = 0 then 3 else r
      | none => 3 }

/-- `addCompensationAction` pushes the new action at the END of the plan's
action list (forward/creation order). -/
def addCompensationAction {α : Type} (actions : List α) (a : α) : List α :=
  actions ++ [a]

/-- An action together with the observable behaviour of its remote call for
the run being modelled: whether a client is registered for `serviceName`,
and `script k` = the `k`-th (0-based) `Promise.race` of
`client.send(...)` against the timeout resolves successfully. -/
structure ScriptedAction where
  action : CompensationAction
  clientRegistered : Bool
  script : Nat → Bool

/-- `Math.min(1000 * Math.pow(2, attempts - 1), 10000)`: the wait before the
next retry, computed AFTER `attempts` was incremented — a deterministic
exponential backoff; no jitter term is added. -/
def backoffDelay (attempts : Nat) : Nat :=
  min (1000 * 2 ^ (attempts - 1)) 10000

/-- `action.retries || 3`: the loop bound, with JS falsiness defaulting a
zero retry count to 3. -/
def effRetries (retries : Nat) : Nat :=
  if retries = 0 then 3 else retries

/-- The `while (attempts < retries)` loop of `executeCompensationAction`,
translated structurally on the remaining attempt budget
`remaining = retries - attempts` (the loop guard `attempts < retries` holds
exactly when `remaining > 0`): a successful attempt returns immediately; on
failure the counter is incremented and, while the guard still holds
(`attempts + 1 < retries`, i.e. the old `remaining` exceeds 1), a
`backoffDelay` wait precedes the next attempt.  Returns (success, final
attempt counter, the backoff delays waited, in order). -/
def attemptLoop (script : Nat → Bool) : Nat → Nat → Bool × Nat × List Nat
  | 0, attempts => (false, attempts, [])
  | remaining + 1, attempts =>
    if script attempts then (true, attempts + 1, [])
    else
      match remaining with
      | 0 => (false, attempts + 1, [])
      | m + 1 =>
        let r := attemptLoop script (m + 1) (attempts + 1)
        (r.1, r.2.1, backoffDelay (attempts + 1) :: r.2.2)

/-- The retry loop, entered with `attempts = 0` and bound `retries`. -/
def runAttempts (script : Nat → Bool) (retries : Nat) : Bool × Nat × List Nat :=
  attemptLoop script retries 0

/-- `executeCompensationAction`: an unregistered service client yields an
immediate failure result; otherwise the retry loop runs with bound
`action.retries || 3`, and the result carries `success` with an error
message exactly when every attempt failed. -/
def executeCompensationAction (a : ScriptedAction) : CompensationResult :=
  if a.clientRegistered then
    let r := runAttempts a.script (effRetries a.action.retries)
    { actionId := a.action.actionId, success := r.1, hasError := !r.1 }
  else
    { actionId := a.action.actionId, success := false, hasError := true }

/-- The status aggregation at the end of `executeCompensation`:
`COMPLETED` if `results.every(success)`, else `PARTIAL` if
`results.some(success)`, else `FAILED`. -/
def finalStatus (results : List CompensationResult) : CompensationStatus :=
  if results.all (·.success) then .COMPLETED
  else if results.any (·.success) then .PARTIAL
  else .FAILED

/-- `executeCompensation(planId)`: iterates the plan's actions from the last
added to the first (`for (let i = actions.length - 1; i >= 0; i--)`),
executing each and collecting its result, then sets the final plan status
from the aggregate.  Returns (results in execution order, final status). -/
def executeCompensation (actions : List ScriptedAction) :
    List CompensationResult × CompensationStatus :=
  let results := actions.reverse.map executeCompensationAction
  (results, finalStatus results)

/-- Modelled from the spec: the backoff the spec claims — "exponential
backoff (`min(base * 2^(attempt-1), cap)` plus jitter)", i.e. the
exponential delay plus a strictly positive random jitter term. -/
def specBackoffWithJitter (base cap attempt jitter : Nat) : Nat :=
  min (base * 2 ^ (attempt - 1)) cap + jitter

end Compensation

namespace Saga

/-- The coordinator's `sagas: Map<string, SagaDefinition>`, as an
insertion-ordered association list. -/
def lookupSaga : List (String × SagaDefinition) → String → Option SagaDefinition
  | [], _ => none
  | (k, v) :: rest, sagaId => if k = sagaId then some v else lookupSaga rest sagaId

/-- `this.sagas.set(id, saga)`: replace in place, or append a new key. -/
def setSaga : List (String × SagaDefinition) → String → SagaDefinition →
    List (String × SagaDefinition)
  | [], sagaId, saga => [(sagaId, saga)]
  | (k, v) :: rest, sagaId, saga =>
    if k = sagaId then (k, saga) :: rest else (k, v) :: setSaga rest sagaId saga

/-- `getActiveSagas()`: `Array.from(this.sagas.values()).filter(saga =>
saga.status === SagaStatus.RUNNING)`. -/
def getActiveSagas (st : List (String × SagaDefinition)) : List SagaDefinition :=
  (st.map Prod.snd).filter (fun s => s.status = .RUNNING)

/-- Coordinator registries reachable through the service's operations.  One
constructor per mutation site of `this.sagas` / `saga.status` in
saga-coordinator.service.ts: registration by `startSaga` (STARTED), the
`IN_PROGRESS` and `COMPENSATING` marks inside `executeSaga`, a completed
`executeSaga` or `compensateSaga` run, `retrySaga`'s reset-to-STARTED and
its full run, and any in-flight mutation that leaves the status unchanged
(step flags, result/error, times). -/
inductive CoordReach : List (String × SagaDefinition) → Prop
  | empty : CoordReach []
  | register (st : List (String × SagaDefinition)) (sagaId name : String)
      (specs : List StepSpec) (now : Nat) : CoordReach st →
      CoordReach (setSaga st sagaId
        { name := name, steps := specs.map freshStep, status := .STARTED,
          startTime := now, endTime := none })
  | markInProgress (st : List (String × SagaDefinition)) (sagaId : String)
      (saga : SagaDefinition) : CoordReach st → lookupSaga st sagaId = some saga →
      CoordReach (setSaga st sagaId { saga with status := .IN_PROGRESS })
  | markCompensating (st : List (String × SagaDefinition)) (sagaId : String)
      (saga : SagaDefinition) : CoordReach st → lookupSaga st sagaId = some saga →
      CoordReach (setSaga st sagaId { saga with status := .COMPENSATING })
  | finishRun (st : List (String × SagaDefinition)) (sagaId : String)
      (saga : SagaDefinition) (now : Nat) : CoordReach st →
      lookupSaga st sagaId = some saga →
      CoordReach (setSaga st sagaId (executeSaga saga now).saga)
  | compensate (st : List (String × SagaDefinition)) (sagaId : String)
      (saga : SagaDefinition) (now : Nat) : CoordReach st →
      lookupSaga st sagaId = some saga →
      CoordReach (setSaga st sagaId (compensateSaga saga now).1)
  | retryReset (st : List (String × SagaDefinition)) (sagaId : String)
      (saga : SagaDefinition) (now : Nat) : CoordReach st →
      lookupSaga st sagaId = some saga →
      CoordReach (setSaga st sagaId
        { saga with
          steps := saga.steps.map resetStep, status := .STARTED,
          startTime := now, endTime := none })
  | retryRun (st : List (String × SagaDefinition)) (sagaId : String)
      (saga : SagaDefinition) (now : Nat) (r : RunResult) : CoordReach st →
      lookupSaga st sagaId = some saga → retrySaga (some saga) now = .ok r →
      CoordReach (setSaga st sagaId r.saga)
  | mutateSameStatus (st : List (String × SagaDefinition)) (sagaId : String)
      (saga saga' : SagaDefinition) : CoordReach st →
      lookupSaga st sagaId = some saga → saga'.status = saga.status →
      CoordReach (setSaga st sagaId saga')

end Saga

namespace Saga

theorem forwardLoop_ok_flag (steps : List SagaStep) :
    (forwardLoop steps).2.2.2 = steps.all (·.actionOk) := by
  induction steps with
  | nil => simp [forwardLoop]
  | cons s rest ih =>
    by_cases h : s.actionOk = true
    · simp [forwardLoop, h, ih]
    · simp [forwardLoop, Bool.eq_false_iff.mpr h]

theorem forwardLoop_all_ok (steps : List SagaStep) (h : ∀ s ∈ steps, s.actionOk = true) :
    forwardLoop steps =
      (steps.map execOk, steps.map (fun s => SagaEvent.StepCompleted s.name),
       steps.map (·.name), true) := by
  induction steps with
  | nil => simp [forwardLoop]
  | cons s rest ih =>
    have hs := h s (by simp)
    simp [forwardLoop, hs, ih (fun x hx => h x (by simp [hx]))]

theorem forwardLoop_fail (pre post : List SagaStep) (s : SagaStep)
    (hpre : ∀ p ∈ pre, p.actionOk = true) (hs : s.actionOk = false) :
    forwardLoop (pre ++ s :: post) =
      (pre.map execOk ++ execFail s :: post,
       pre.map (fun p => SagaEvent.StepCompleted p.name) ++ [.StepFailed s.name],
       pre.map (·.name) ++ [s.name], false) := by
  induction pre with
  | nil => simp [forwardLoop, hs]
  | cons p rest ih =>
    have hp := hpre p (by simp)
    simp [forwardLoop, hp, ih (fun x hx => hpre x (by simp [hx]))]

theorem compUpdate_freshStep (sp : StepSpec) : compUpdate (freshStep sp) = freshStep sp := by
  simp [compUpdate, freshStep]

theorem compUpdate_execFail_freshStep (sp : StepSpec) :
    compUpdate (execFail (freshStep sp)) = execFail (freshStep sp) := by
  simp [compUpdate, execFail, freshStep]

theorem executed_execOk (s : SagaStep) : (execOk s).executed = true := rfl

end Saga

namespace Saga

theorem name_execOk (s : SagaStep) : (execOk s).name = s.name := rfl

theorem name_freshStep (sp : StepSpec) : (freshStep sp).name = sp.name := rfl

theorem executed_freshStep (sp : StepSpec) : (freshStep sp).executed = false := rfl

theorem executed_execFail (s : SagaStep) : (execFail s).executed = s.executed := rfl

theorem resetStep_eq (s : SagaStep) : resetStep s = freshStep (specOf s) := rfl

/-- C1: Saga all-or-nothing with reverse-order compensation.  For every step
sequence: if every step's action succeeds the saga ends `COMPLETED` with
every step `executed = true` and `compensated = false`; if the action of
step `sf` (preceded by `pre`, followed by `post`) fails, the forward loop
aborts — only the actions of `pre` and `sf` are invoked, no later step runs —
`sf` ends `executed = false`, and the compensation of each previously
executed step is invoked exactly once, in reverse execution order
(`compInvoked` equals the reversed names of `pre`), marking each
`compensated = true` exactly when its compensation succeeds
(`compUpdate ∘ execOk ∘ freshStep`). -/
theorem saga_all_or_nothing_reverse_compensation
    (name : String) (now : Nat) (specs pre post : List StepSpec) (sf : StepSpec)
    (hall : ∀ sp ∈ specs, sp.actionOk = true)
    (hpre : ∀ p ∈ pre, p.actionOk = true) (hf : sf.actionOk = false) :
    ((startSaga name specs now).saga.status = .COMPLETED ∧
     (startSaga name specs now).saga.steps = specs.map (fun sp => execOk (freshStep sp)) ∧
     (∀ st ∈ (startSaga name specs now).saga.steps,
        st.executed = true ∧ st.compensated = false)) ∧
    ((startSaga name (pre ++ sf :: post) now).saga.status = .COMPENSATED ∧
     (startSaga name (pre ++ sf :: post) now).saga.steps =
       pre.map (fun p => compUpdate (execOk (freshStep p))) ++
         execFail (freshStep sf) :: post.map freshStep ∧
     (startSaga name (pre ++ sf :: post) now).actInvoked =
       pre.map (·.name) ++ [sf.name] ∧
     (startSaga name (pre ++ sf :: post) now).compInvoked =
       (pre.map (·.name)).reverse) := by
  constructor
  · have h1 : ∀ s ∈ specs.map freshStep, s.actionOk = true := by
      intro s hs
      rcases List.mem_map.mp hs with ⟨sp, hsp, rfl⟩
      simpa [freshStep] using hall sp hsp
    refine ⟨?_, ?_, ?_⟩ <;>
      simp only [startSaga, executeSaga, forwardLoop_all_ok _ h1, List.map_map, if_true]
    · simp [Function.comp_def]
    · intro st hst
      rcases List.mem_map.mp hst with ⟨sp, hsp, rfl⟩
      simp [execOk, freshStep, Function.comp_def]
  · have hpre1 : ∀ p ∈ pre.map freshStep, p.actionOk = true := by
      intro p hp
      rcases List.mem_map.mp hp with ⟨sp, hsp, rfl⟩
      simpa [freshStep] using hpre sp hsp
    have hsf : (freshStep sf).actionOk = false := by simpa [freshStep] using hf
    have hfw := forwardLoop_fail (pre.map freshStep) (post.map freshStep) (freshStep sf) hpre1 hsf
    refine ⟨?_, ?_, ?_, ?_⟩ <;>
      simp only [startSaga, executeSaga, compensateSaga, List.map_append, List.map_cons,
        hfw, Bool.false_eq_true, if_false]
    all_goals
      simp [List.map_map, Function.comp_def, compUpdate_execFail_freshStep,
        compUpdate_freshStep, List.filter_append, List.filter_cons, List.filter_map,
        executed_execOk, executed_freshStep, executed_execFail,
        name_execOk, name_freshStep, List.map_reverse]

theorem saga_all_or_nothing_reverse_compensation_witness :
    (startSaga "w" [⟨"A", true, true⟩, ⟨"B", true, true⟩] 3).saga.status = .COMPLETED ∧
    (startSaga "w" [⟨"A", true, true⟩, ⟨"B", true, true⟩, ⟨"C", false, true⟩] 3).compInvoked =
      ["B", "A"] := by
  have h := saga_all_or_nothing_reverse_compensation "w" 3
    [⟨"A", true, true⟩, ⟨"B", true, true⟩]
    [⟨"A", true, true⟩, ⟨"B", true, true⟩] [] ⟨"C", false, true⟩
    (by decide) (by decide) (by decide)
  exact ⟨h.1.1, h.2.2.2.2⟩

/-- C2: Best-effort rollback.  For every saga entering compensation:
`compensateSaga` always returns normally (it is a total function — every
compensation failure is caught inside the loop, nothing is re-thrown to the
saga's caller) with terminal status `COMPENSATED` and `endTime` set; the
compensation of every executed step is invoked (in reverse order) even when
other compensations throw; a `CompensationFailed` event is recorded for each
step whose compensation throws; and a saga whose forward run fails still
reaches `COMPENSATED` with `endTime` set through `executeSaga`. -/
theorem compensation_best_effort_rollback (saga : SagaDefinition) (now : Nat) :
    (compensateSaga saga now).1.status = .COMPENSATED ∧
    (compensateSaga saga now).1.endTime = some now ∧
    (compensateSaga saga now).2.2 =
      ((saga.steps.filter (·.executed)).reverse).map (·.name) ∧
    (∀ st ∈ saga.steps, st.executed = true → st.compOk = false →
      SagaEvent.CompensationFailed st.name ∈ (compensateSaga saga now).2.1) ∧
    (saga.steps.all (·.actionOk) = false →
      (executeSaga saga now).saga.status = .COMPENSATED ∧
      (executeSaga saga now).saga.endTime = some now) := by
  refine ⟨rfl, rfl, rfl, ?_, ?_⟩
  · intro st hmem hexec hcomp
    simp only [compensateSaga]
    apply List.mem_append_left
    refine List.mem_map.mpr ⟨st, ?_, ?_⟩
    · rw [List.mem_reverse]
      exact List.mem_filter.mpr ⟨hmem, by simp [hexec]⟩
    · simp [compEventOf, hcomp]
  · intro hall
    have hflag : (forwardLoop saga.steps).2.2.2 = false := by
      rw [forwardLoop_ok_flag]; exact hall
    constructor <;> simp [executeSaga, hflag, compensateSaga]

theorem compensation_best_effort_rollback_witness :
    SagaEvent.CompensationFailed "B" ∈
      (compensateSaga
        { name := "w",
          steps := [⟨"A", true, true, true, false, true, false⟩,
                    ⟨"B", true, false, true, false, true, false⟩],
          status := .COMPENSATING, startTime := 0, endTime := none } 7).2.1 ∧
    (compensateSaga
        { name := "w",
          steps := [⟨"A", true, true, true, false, true, false⟩,
                    ⟨"B", true, false, true, false, true, false⟩],
          status := .COMPENSATING, startTime := 0, endTime := none } 7).1.status =
      .COMPENSATED := by
  have h := compensation_best_effort_rollback
    { name := "w",
      steps := [⟨"A", true, true, true, false, true, false⟩,
                ⟨"B", true, false, true, false, true, false⟩],
      status := .COMPENSATING, startTime := 0, endTime := none } 7
  exact ⟨h.2.2.2.1 ⟨"B", true, false, true, false, true, false⟩
    (by decide) (by decide) (by decide), h.1⟩

/-- C8: `retrySaga` raises exactly when the saga is absent
(`sagaNotFound`) or its status is neither `FAILED` nor `COMPENSATED` —
in particular it is rejected while `STARTED`/`RUNNING`/`IN_PROGRESS`/
`COMPENSATING`/`COMPLETED`, in which case it returns the
`cannotRetryInStatus` error and produces no new saga state.  When legal, the
result is exactly `SagaRetried` followed by `executeSaga` applied to a saga
whose steps are rebuilt fresh from their specs (`executed = false`,
`compensated = false`, result and error cleared) with status `STARTED` —
a full restart from the first step, not resumption at the failed step. -/
theorem retrySaga_guard_and_full_restart (saga : SagaDefinition) (now : Nat) :
    retrySaga none now = .error .sagaNotFound ∧
    ((retrySaga (some saga) now).isOk = true ↔
      (saga.status = .FAILED ∨ saga.status = .COMPENSATED)) ∧
    (¬(saga.status = .FAILED ∨ saga.status = .COMPENSATED) →
      retrySaga (some saga) now = .error (.cannotRetryInStatus saga.status)) ∧
    ((saga.status = .FAILED ∨ saga.status = .COMPENSATED) →
      retrySaga (some saga) now =
        .ok { executeSaga
                { name := saga.name, steps := (saga.steps.map specOf).map freshStep,
                  status := .STARTED, startTime := now, endTime := none } now with
              events := .SagaRetried ::
                (executeSaga
                  { name := saga.name, steps := (saga.steps.map specOf).map freshStep,
                    status := .STARTED, startTime := now, endTime := none } now).events }) := by
  have hreset : saga.steps.map resetStep = (saga.steps.map specOf).map freshStep := by
    rw [List.map_map]
    exact List.map_congr_left (fun s _ => resetStep_eq s)
  refine ⟨rfl, ?_, ?_, ?_⟩
  · by_cases h : saga.status = .FAILED ∨ saga.status = .COMPENSATED
    · have hcond : ¬(saga.status ≠ .FAILED ∧ saga.status ≠ .COMPENSATED) := by tauto
      simp [retrySaga, hcond, Except.isOk, Except.toBool, h]
    · have hcond : saga.status ≠ .FAILED ∧ saga.status ≠ .COMPENSATED := by tauto
      simp [retrySaga, hcond, Except.isOk, Except.toBool, h]
  · intro h
    have hcond : saga.status ≠ .FAILED ∧ saga.status ≠ .COMPENSATED := by tauto
    simp [retrySaga, hcond]
  · intro h
    have hcond : ¬(saga.status ≠ .FAILED ∧ saga.status ≠ .COMPENSATED) := by tauto
    simp only [retrySaga, if_neg hcond, hreset]

theorem retrySaga_guard_and_full_restart_witness :
    (retrySaga (some
      { name := "w", steps := [⟨"A", true, true, false, false, false, false⟩],
        status := .COMPENSATED, startTime := 0, endTime := some 1 }) 5).isOk = true ∧
    retrySaga (some
      { name := "w", steps := [⟨"A", true, true, false, false, false, false⟩],
        status := .IN_PROGRESS, startTime := 0, endTime := none }) 5 =
      .error (.cannotRetryInStatus .IN_PROGRESS) := by
  have h1 := retrySaga_guard_and_full_restart
    { name := "w", steps := [⟨"A", true, true, false, false, false, false⟩],
      status := .COMPENSATED, startTime := 0, endTime := some 1 } 5
  have h2 := retrySaga_guard_and_full_restart
    { name := "w", steps := [⟨"A", true, true, false, false, false, false⟩],
      status := .IN_PROGRESS, startTime := 0, endTime := none } 5
  exact ⟨h1.2.1.mpr (Or.inr rfl), h2.2.2.1 (by decide)⟩

theorem executeSaga_status (saga : SagaDefinition) (now : Nat) :
    (executeSaga saga now).saga.status = .COMPLETED ∨
    (executeSaga saga now).saga.status = .COMPENSATED := by
  by_cases h : (forwardLoop saga.steps).2.2.2 = true
  · left; simp [executeSaga, h]
  · right
    have h' : (forwardLoop saga.steps).2.2.2 = false := by simpa using h
    simp [executeSaga, h', compensateSaga]

theorem lookupSaga_mem {st : List (String × SagaDefinition)} {sagaId : String}
    {saga : SagaDefinition} (h : lookupSaga st sagaId = some saga) : (sagaId, saga) ∈ st := by
  induction st with
  | nil => simp [lookupSaga] at h
  | cons q rest ih =>
    obtain ⟨k, v⟩ := q
    by_cases hk : k = sagaId
    · subst hk
      simp [lookupSaga] at h
      simp [h]
    · simp [lookupSaga, hk] at h
      exact List.mem_cons_of_mem _ (ih h)

theorem mem_setSaga {st : List (String × SagaDefinition)} {sagaId : String}
    {saga : SagaDefinition} {p : String × SagaDefinition}
    (h : p ∈ setSaga st sagaId saga) : p.2 = saga ∨ p ∈ st := by
  induction st with
  | nil =>
    simp [setSaga] at h
    simp [h]
  | cons q rest ih =>
    obtain ⟨k, v⟩ := q
    by_cases hk : k = sagaId
    · subst hk
      simp [setSaga] at h
      rcases h with h | h
      · left; simp [h]
      · right; exact List.mem_cons_of_mem _ h
    · simp [setSaga, hk] at h
      rcases h with h | h
      · right; simp [h]
      · rcases ih h with h2 | h2
        · left; exact h2
        · right; exact List.mem_cons_of_mem _ h2

theorem retrySaga_ok_status {saga : SagaDefinition} {now : Nat} {r : RunResult}
    (h : retrySaga (some saga) now = .ok r) :
    r.saga.status = .COMPLETED ∨ r.saga.status = .COMPENSATED := by
  by_cases hc : saga.status ≠ .FAILED ∧ saga.status ≠ .COMPENSATED
  · simp [retrySaga, hc] at h
  · simp only [retrySaga, if_neg hc, Except.ok.injEq] at h
    rw [← h]
    exact executeSaga_status _ _

theorem coordReach_no_running {st : List (String × SagaDefinition)} (h : CoordReach st) :
    ∀ p ∈ st, p.2.status ≠ SagaStatus.RUNNING := by
  induction h with
  | empty => simp
  | register st sagaId name specs now hr ih =>
    intro p hp
    rcases mem_setSaga hp with h2 | h2
    · rw [h2]; simp
    · exact ih p h2
  | markInProgress st sagaId saga hr hl ih =>
    intro p hp
    rcases mem_setSaga hp with h2 | h2
    · rw [h2]; simp
    · exact ih p h2
  | markCompensating st sagaId saga hr hl ih =>
    intro p hp
    rcases mem_setSaga hp with h2 | h2
    · rw [h2]; simp
    · exact ih p h2
  | finishRun st sagaId saga now hr hl ih =>
    intro p hp
    rcases mem_setSaga hp with h2 | h2
    · rw [h2]
      rcases executeSaga_status saga now with h3 | h3 <;> simp [h3]
    · exact ih p h2
  | compensate st sagaId saga now hr hl ih =>
    intro p hp
    rcases mem_setSaga hp with h2 | h2
    · rw [h2]; simp [compensateSaga]
    · exact ih p h2
  | retryReset st sagaId saga now hr hl ih =>
    intro p hp
    rcases mem_setSaga hp with h2 | h2
    · rw [h2]; simp
    · exact ih p h2
  | retryRun st sagaId saga now r hr hl hok ih =>
    intro p hp
    rcases mem_setSaga hp with h2 | h2
    · rw [h2]
      rcases retrySaga_ok_status hok with h3 | h3 <;> simp [h3]
    · exact ih p h2
  | mutateSameStatus st sagaId saga saga' hr hl hs ih =>
    intro p hp
    rcases mem_setSaga hp with h2 | h2
    · rw [h2, hs]
      exact ih (sagaId, saga) (lookupSaga_mem hl)
    · exact ih p h2

/-- C10 (implicit): the coordinator never assigns status `RUNNING` — its
operations produce only `STARTED`, `IN_PROGRESS`, `COMPENSATING`,
`COMPLETED` and `COMPENSATED` — so for every reachable registry
`getActiveSagas()`, which filters on `status === SagaStatus.RUNNING`,
returns the empty list: an in-flight saga is never reported as active. -/
theorem getActiveSagas_always_empty {st : List (String × SagaDefinition)}
    (h : CoordReach st) : getActiveSagas st = [] := by
  rw [getActiveSagas, List.filter_eq_nil_iff]
  intro s hs
  rcases List.mem_map.mp hs with ⟨p, hp, rfl⟩
  simpa using coordReach_no_running h p hp

theorem getActiveSagas_always_empty_witness :
    getActiveSagas (setSaga [] "s1"
      { name := "reg", steps := ([⟨"A", true, true⟩] : List StepSpec).map freshStep,
        status := .STARTED, startTime := 0, endTime := none }) = [] :=
  getActiveSagas_always_empty
    (CoordReach.register [] "s1" "reg" [⟨"A", true, true⟩] 0 CoordReach.empty)

end Saga

namespace CircuitBreaker

theorem execute_fail_closed_below (cfg : CircuitBreakerConfig) (key : String) (t : Nat)
    (c : CircuitBreakerStats) (hstate : c.state = .CLOSED)
    (hlt : c.failureCount + 1 < cfg.failureThreshold) :
    (execute (some cfg) key t false false c).circuit =
      { c with failureCount := c.failureCount + 1, lastFailureTime := some t } := by
  have hnotle : ¬ cfg.failureThreshold ≤ c.failureCount + 1 := by omega
  simp [execute, isCircuitOpen, hstate, onFailure, hnotle]

theorem execute_fail_closed_hit (cfg : CircuitBreakerConfig) (key : String) (t : Nat)
    (c : CircuitBreakerStats) (hstate : c.state = .CLOSED)
    (hge : cfg.failureThreshold ≤ c.failureCount + 1) :
    (execute (some cfg) key t false false c).circuit =
      { c with
        failureCount := c.failureCount + 1, lastFailureTime := some t,
        state := .OPEN, nextAttempt := some (t + cfg.timeout) } := by
  simp [execute, isCircuitOpen, hstate, onFailure, hge]

theorem iterFail_opens (cfg : CircuitBreakerConfig) (key : String) (t : Nat) (n : Nat)
    (c : CircuitBreakerStats) (hstate : c.state = .CLOSED)
    (hsum : c.failureCount + n = cfg.failureThreshold) (hn : 1 ≤ n) :
    iterFail cfg key t n c =
      { c with
        failureCount := cfg.failureThreshold, lastFailureTime := some t,
        state := .OPEN, nextAttempt := some (t + cfg.timeout) } := by
  induction n generalizing c with
  | zero => omega
  | succ m ih =>
    rw [iterFail]
    by_cases hm : m = 0
    · subst hm
      rw [execute_fail_closed_hit cfg key t c hstate (by omega)]
      have hco : c.failureCount + 1 = cfg.failureThreshold := by omega
      rw [iterFail, hco]
    · rw [execute_fail_closed_below cfg key t c hstate (by omega)]
      have := ih { c with failureCount := c.failureCount + 1, lastFailureTime := some t }
        (by simpa using hstate) (by simp; omega) (by omega)
      simpa using this

theorem execute_opInvoked_of_allowed (cfg : CircuitBreakerConfig) (key : String)
    (now : Nat) (opOk fb : Bool) (c : CircuitBreakerStats)
    (h : (isCircuitOpen now c).1 = false) :
    (execute (some cfg) key now opOk fb c).opInvoked = true := by
  cases opOk <;> cases fb
  all_goals simp [execute, h]
  all_goals split <;> rfl

/-- C3: circuit-breaker threshold and fail-fast.  For a configured service
key starting from the fresh CLOSED circuit, after `failureThreshold`
consecutive operation failures (all at time `t`) the circuit is OPEN with
`nextAttempt = t + timeout`; every `execute` call before `nextAttempt` is
rejected without invoking the operation and leaves the circuit unchanged
(so any number of rejected calls may happen meanwhile), and with no fallback
it fails with the error naming the service key; the first call at or after
`nextAttempt` is allowed through — the operation is invoked and the open
check moves the circuit to HALF_OPEN — regardless of how many calls were
rejected in between. -/
theorem circuit_breaker_threshold_fail_fast (cfg : CircuitBreakerConfig) (key : String)
    (t : Nat) (c : CircuitBreakerStats) (hth : 1 ≤ cfg.failureThreshold)
    (hc : c = iterFail cfg key t cfg.failureThreshold newCircuit) :
    c.state = .OPEN ∧ c.nextAttempt = some (t + cfg.timeout) ∧
    (∀ u opOk fb, u < t + cfg.timeout →
      (execute (some cfg) key u opOk fb c).opInvoked = false ∧
      (execute (some cfg) key u opOk fb c).circuit = c) ∧
    (∀ u opOk, u < t + cfg.timeout →
      execute (some cfg) key u opOk false c =
        { outcome := .circuitOpenError key, opInvoked := false, circuit := c }) ∧
    (∀ u opOk fb, t + cfg.timeout ≤ u →
      (execute (some cfg) key u opOk fb c).opInvoked = true ∧
      (isCircuitOpen u c).2.state = .HALF_OPEN) := by
  have hcv : c =
      { failureCount := cfg.failureThreshold, successCount := 0,
        lastFailureTime := some t, state := .OPEN, nextAttempt := some (t + cfg.timeout) } := by
    rw [hc, iterFail_opens cfg key t cfg.failureThreshold newCircuit rfl (by simp [newCircuit]) hth]
    rfl
  subst hcv
  refine ⟨rfl, rfl, ?_, ?_, ?_⟩
  · intro u opOk fb hu
    have hne : t + cfg.timeout ≠ 0 := by omega
    constructor <;> cases fb <;> simp [execute, isCircuitOpen, hne, hu]
  · intro u opOk hu
    have hne : t + cfg.timeout ≠ 0 := by omega
    simp [execute, isCircuitOpen, hne, hu]
  · intro u opOk fb hu
    have hnlt : ¬ u < t + cfg.timeout := by omega
    have hopen : (isCircuitOpen u
        { failureCount := cfg.failureThreshold, successCount := 0, lastFailureTime := some t,
          state := .OPEN, nextAttempt := some (t + cfg.timeout) }).1 = false := by
      simp [isCircuitOpen, hnlt]
    exact ⟨execute_opInvoked_of_allowed cfg key u opOk fb _ hopen, by simp [isCircuitOpen, hnlt]⟩

theorem circuit_breaker_threshold_fail_fast_witness :
    execute (some ⟨3, 2, 1000⟩) "USER_SERVICE" 500 true false
      (iterFail ⟨3, 2, 1000⟩ "USER_SERVICE" 100 3 newCircuit) =
      { outcome := .circuitOpenError "USER_SERVICE", opInvoked := false,
        circuit := iterFail ⟨3, 2, 1000⟩ "USER_SERVICE" 100 3 newCircuit } ∧
    (execute (some ⟨3, 2, 1000⟩) "USER_SERVICE" 1100 true false
      (iterFail ⟨3, 2, 1000⟩ "USER_SERVICE" 100 3 newCircuit)).opInvoked = true := by
  have h := circuit_breaker_threshold_fail_fast ⟨3, 2, 1000⟩ "USER_SERVICE" 100
    (iterFail ⟨3, 2, 1000⟩ "USER_SERVICE" 100 3 newCircuit) (by decide) rfl
  refine ⟨?_, (h.2.2.2.2 1100 true false (by decide)).1⟩
  have h4 := h.2.2.2.1 500 true (by decide)
  simpa using h4

theorem reachable_open_failureCount {cfg : CircuitBreakerConfig} {c : CircuitBreakerStats}
    (h : Reachable cfg c) :
    (c.state = .OPEN ∨ c.state = .HALF_OPEN) → cfg.failureThreshold ≤ c.failureCount := by
  induction h with
  | new => intro hs; rcases hs with hs | hs <;> simp [newCircuit] at hs
  | check now cc hr ih =>
    intro hs
    rcases hst : cc.state with h1 | h1 | h1 <;> rw [isCircuitOpen] at hs ⊢ <;> simp [hst] at hs ⊢
    · rcases hna : cc.nextAttempt with _ | t
      · simp [hna] at hs ⊢
        exact ih (Or.inl hst)
      · simp [hna] at hs ⊢
        by_cases hcond : ¬t = 0 ∧ now < t
        · simp [hcond] at hs ⊢
          exact ih (Or.inl hst)
        · simp [hcond] at hs ⊢
          exact ih (Or.inl hst)
    · exact ih (Or.inr hst)
  | success cc hr ih =>
    intro hs
    rcases hst : cc.state with h1 | h1 | h1 <;> rw [onSuccess] at hs ⊢ <;> simp [hst] at hs ⊢
    · exact ih (Or.inl hst)
    · by_cases hth : cfg.successThreshold ≤ cc.successCount + 1
      · simp [hth] at hs
      · simp [hth] at hs ⊢
        exact ih (Or.inr hst)
  | failure now cc hr ih =>
    intro hs
    rw [onFailure] at hs ⊢
    by_cases hcond : (cc.state = .CLOSED ∨ cc.state = .HALF_OPEN) ∧
        cfg.failureThreshold ≤ cc.failureCount + 1
    · simp [hcond]
    · simp [hcond] at hs ⊢
      have := ih hs
      omega
  | reset cc hr ih =>
    intro hs
    rcases hs with hs | hs <;> simp [resetCircuit] at hs

theorem iterSuccess_closes (cfg : CircuitBreakerConfig) (n : Nat) (c : CircuitBreakerStats)
    (hstate : c.state = .HALF_OPEN) (hsum : c.successCount + n = cfg.successThreshold)
    (hn : 1 ≤ n) :
    (iterSuccess cfg n c).state = .CLOSED ∧
    (iterSuccess cfg n c).failureCount = 0 ∧
    (iterSuccess cfg n c).successCount = 0 := by
  induction n generalizing c with
  | zero => omega
  | succ m ih =>
    rw [iterSuccess]
    by_cases hm : m = 0
    · subst hm
      have hhit : cfg.successThreshold ≤ c.successCount + 1 := by omega
      rw [iterSuccess]
      rw [onSuccess]
      simp [hstate, hhit]
    · have hmiss : ¬ cfg.successThreshold ≤ c.successCount + 1 := by omega
      have honc : onSuccess cfg c = { c with successCount := c.successCount + 1 } := by
        rw [onSuccess]
        simp [hstate, hmiss]
      rw [honc]
      exact ih { c with successCount := c.successCount + 1 } (by simpa using hstate)
        (by simp; omega) (by omega)

/-- C4: circuit-breaker recovery.  For every reachable circuit in HALF_OPEN
(entered via the open check, which always resets `successCount` to 0 — last
conjunct): `successThreshold` consecutive successes transition it to CLOSED
with `failureCount` and `successCount` both reset to zero, and a single
operation failure immediately returns it to OPEN with a fresh
`nextAttempt = now + timeout` (this uses the reachability invariant that a
HALF_OPEN circuit still carries `failureCount ≥ failureThreshold`, which is
why one more failure re-opens it). -/
theorem circuit_breaker_recovery (cfg : CircuitBreakerConfig) (c : CircuitBreakerStats)
    (hreach : Reachable cfg c) (hhalf : c.state = .HALF_OPEN) :
    (c.successCount = 0 → 1 ≤ cfg.successThreshold →
      (iterSuccess cfg cfg.successThreshold c).state = .CLOSED ∧
      (iterSuccess cfg cfg.successThreshold c).failureCount = 0 ∧
      (iterSuccess cfg cfg.successThreshold c).successCount = 0) ∧
    (∀ now, (onFailure cfg now c).state = .OPEN ∧
      (onFailure cfg now c).nextAttempt = some (now + cfg.timeout)) ∧
    (∀ now d, d.state = .OPEN → (isCircuitOpen now d).2.state = .HALF_OPEN →
      (isCircuitOpen now d).2.successCount = 0) := by
  refine ⟨?_, ?_, ?_⟩
  · intro hsc hth
    exact iterSuccess_closes cfg cfg.successThreshold c hhalf (by omega) hth
  · intro now
    have hinv : cfg.failureThreshold ≤ c.failureCount :=
      reachable_open_failureCount hreach (Or.inr hhalf)
    have hge : cfg.failureThreshold ≤ c.failureCount + 1 := by omega
    rw [onFailure]
    simp [hhalf, hge]
  · intro now d hd hh
    rw [isCircuitOpen] at hh ⊢
    simp [hd] at hh ⊢
    rcases hna : d.nextAttempt with _ | t
    · simp [hna]
    · simp [hna] at hh ⊢
      by_cases hcond : ¬t = 0 ∧ now < t
      · simp [hcond] at hh
        rw [hd] at hh
        simp at hh
      · simp [hcond]

theorem circuit_breaker_recovery_witness :
    (iterSuccess ⟨2, 2, 10⟩ 2
      (isCircuitOpen 10 (onFailure ⟨2, 2, 10⟩ 0 (onFailure ⟨2, 2, 10⟩ 0 newCircuit))).2).state =
      .CLOSED ∧
    (onFailure ⟨2, 2, 10⟩ 5
      (isCircuitOpen 10 (onFailure ⟨2, 2, 10⟩ 0 (onFailure ⟨2, 2, 10⟩ 0 newCircuit))).2).state =
      .OPEN := by
  have h := circuit_breaker_recovery ⟨2, 2, 10⟩
    (isCircuitOpen 10 (onFailure ⟨2, 2, 10⟩ 0 (onFailure ⟨2, 2, 10⟩ 0 newCircuit))).2
    (Reachable.check 10 _ (Reachable.failure 0 _ (Reachable.failure 0 _ Reachable.new)))
    (by decide)
  exact ⟨(h.1 (by decide) (by decide)).1, (h.2.1 5).1⟩

end CircuitBreaker

theorem lookupAgg_pushAgg {α : Type} (m : List (String × List α)) (k a : String) (e : α) :
    lookupAgg (pushAgg m k e) a =
      if k = a then lookupAgg m a ++ [e] else lookupAgg m a := by
  induction m with
  | nil => by_cases h : k = a <;> simp [pushAgg, lookupAgg, h]
  | cons q rest ih =>
    obtain ⟨k2, v⟩ := q
    by_cases h1 : k2 = k
    · subst h1
      by_cases h2 : k2 = a <;> simp [pushAgg, lookupAgg, h2]
    · by_cases h2 : k2 = a
      · subst h2
        have hka : ¬ k = k2 := fun hh => h1 hh.symm
        simp [pushAgg, lookupAgg, h1, hka]
      · simp [pushAgg, lookupAgg, h1, h2, ih]

theorem lookupAgg_foldl_pushAgg {α : Type} (key : α → String) (l : List α)
    (m : List (String × List α)) (a : String) :
    lookupAgg (l.foldl (fun acc e => pushAgg acc (key e) e) m) a =
      lookupAgg m a ++ l.filter (fun e => key e = a) := by
  induction l generalizing m with
  | nil => simp
  | cons e rest ih =>
    simp only [List.foldl_cons, ih, lookupAgg_pushAgg, List.filter_cons]
    by_cases h : key e = a <;> simp [h]

namespace EventStore005

theorem reachable_wellFormed {s : EventStoreState} (h : Reachable s) :
    ∀ a, lookupAgg s.eventsByAggregate a = s.events.filter (fun e => e.aggregateId = a) := by
  induction h with
  | empty => intro a; rfl
  | save newId aggId ty d now mv s' hs ih =>
    intro a
    simp only [saveEvent, lookupAgg_pushAgg, List.filter_append, ih]
    by_cases h2 : aggId = a <;> simp [h2]
  | cleanup cutoff s' hs ih =>
    intro a
    simp only [cleanupOldEvents, rebuildByAggregate]
    rw [lookupAgg_foldl_pushAgg]
    rfl

/-- C6: retention cleanup.  For every reachable store state, after
`cleanupOldEvents` with the computed cutoff: no event at or before the
cutoff remains in the global log nor in any per-aggregate bucket (in
particular no event older than the cutoff); the global log is exactly the
strictly-newer sublist of the old log, unchanged and in order; each
per-aggregate bucket is exactly its old bucket with the old events dropped;
and the rebuilt per-aggregate index is mutually consistent with the global
log (each bucket is precisely the log's restriction to that aggregate). -/
theorem retention_cleanup (s : EventStoreState) (cutoff : Nat) (hreach : Reachable s) :
    (∀ e ∈ (cleanupOldEvents s cutoff).events, ¬ e.timestamp < cutoff) ∧
    (∀ a, ∀ e ∈ lookupAgg (cleanupOldEvents s cutoff).eventsByAggregate a,
      ¬ e.timestamp < cutoff) ∧
    (cleanupOldEvents s cutoff).events = s.events.filter (fun e => cutoff < e.timestamp) ∧
    (∀ a, lookupAgg (cleanupOldEvents s cutoff).eventsByAggregate a =
      (lookupAgg s.eventsByAggregate a).filter (fun e => cutoff < e.timestamp)) ∧
    (∀ a, lookupAgg (cleanupOldEvents s cutoff).eventsByAggregate a =
      (cleanupOldEvents s cutoff).events.filter (fun e => e.aggregateId = a)) := by
  have hwf := reachable_wellFormed hreach
  have hrebuild : ∀ a, lookupAgg (cleanupOldEvents s cutoff).eventsByAggregate a =
      (s.events.filter (fun e => cutoff < e.timestamp)).filter (fun e => e.aggregateId = a) := by
    intro a
    simp only [cleanupOldEvents, rebuildByAggregate]
    rw [lookupAgg_foldl_pushAgg]
    rfl
  refine ⟨?_, ?_, rfl, ?_, ?_⟩
  · intro e he
    simp only [cleanupOldEvents, List.mem_filter] at he
    have := he.2
    simp at this
    omega
  · intro a e he
    rw [hrebuild a] at he
    simp only [List.mem_filter] at he
    have h1 := he.1
    simp only [List.mem_filter] at h1
    have h2 := h1.2
    simp at h2
    omega
  · intro a
    rw [hrebuild a, hwf a, List.filter_comm]
  · intro a
    exact hrebuild a

theorem retention_cleanup_witness :
    lookupAgg (cleanupOldEvents
      (saveEvent (saveEvent emptyStore 1 "A" "T" "d" 0 none) 2 "A" "T" "d" 10 none)
      5).eventsByAggregate "A" =
    (lookupAgg (saveEvent (saveEvent emptyStore 1 "A" "T" "d" 0 none)
      2 "A" "T" "d" 10 none).eventsByAggregate "A").filter (fun e => 5 < e.timestamp) :=
  (retention_cleanup (saveEvent (saveEvent emptyStore 1 "A" "T" "d" 0 none) 2 "A" "T" "d" 10 none)
    5 (Reachable.save 2 "A" "T" "d" 10 none _
        (Reachable.save 1 "A" "T" "d" 0 none _ Reachable.empty))).2.2.2.1 "A"

theorem appendsVersioned_bucket (a : String) {s : EventStoreState}
    (h : AppendsVersioned a s) :
    (lookupAgg s.eventsByAggregate a).map (·.version) =
      List.range' 1 (lookupAgg s.eventsByAggregate a).length := by
  induction h with
  | empty => rfl
  | saveOwn newId ty d now s' hs ih =>
    simp only [saveEvent]
    rw [lookupAgg_pushAgg]
    simp only [if_pos rfl, List.map_append, List.length_append, ih]
    simp [getNextVersion, List.range'_concat, Nat.add_comm]
    exact ih
  | saveOther newId b ty d now mv s' hb hs ih =>
    simp only [saveEvent]
    rw [lookupAgg_pushAgg]
    simp only [if_neg hb]
    exact ih

/-- C5 counterexample: the claim fails on the code.  `saveEvent` spreads the
caller's metadata AFTER the computed version, so an explicit
`metadata.version` overrides the per-aggregate counter; the health monitor
always passes `metadata: { version: 1 }`, so after its second
`HEALTH_STATUS_CHANGED` append for the same aggregate, `getEvents` returns
versions `[1, 1]` — not `1..N`, not strictly increasing, with a duplicate,
and the second version is not count + 1 = 2. -/
theorem event_versioning_counterexample :
    ((getEvents (saveEvent (saveEvent emptyStore 1 "health_user" "HEALTH_STATUS_CHANGED" "d" 0
        (some 1)) 2 "health_user" "HEALTH_STATUS_CHANGED" "d" 5 (some 1))
      (filterByAggregate "health_user")).map (·.version) = [1, 1]) ∧
    ¬ List.Pairwise (· < ·) ([1, 1] : List Nat) := by
  constructor
  · decide
  · decide

/-- C5 as amended: for every aggregate `a` none of whose appends supplies an
explicit `metadata.version` (the saga coordinator's saveEvent calls qualify;
the health monitor's and the compensation planner's do not), after any
append sequence — appends to other aggregates interleaved arbitrarily, with
or without overrides — `getEvents(a)` returns versions exactly
`1..N` (`List.range' 1 N`), strictly increasing with no gaps or duplicates,
each assigned as per-aggregate count + 1. -/
theorem event_versioning_amended (a : String) (s : EventStoreState) (ha : a ≠ "")
    (h : AppendsVersioned a s) :
    (getEvents s (filterByAggregate a)).map (·.version) =
      List.range' 1 (lookupAgg s.eventsByAggregate a).length ∧
    List.Pairwise (· < ·) ((getEvents s (filterByAggregate a)).map (·.version)) := by
  have hb := appendsVersioned_bucket a h
  have hlt : List.Pairwise (· < ·) ((lookupAgg s.eventsByAggregate a).map (·.version)) := by
    rw [hb]; exact List.pairwise_lt_range' 1 _ 1
  have hsorted : List.Sorted (fun x y : Ev => x.version ≤ y.version)
      (lookupAgg s.eventsByAggregate a) := by
    have hlt2 := List.pairwise_map.mp hlt
    exact hlt2.imp (fun hxy => Nat.le_of_lt hxy)
  have hget : getEvents s (filterByAggregate a) = lookupAgg s.eventsByAggregate a := by
    simp only [getEvents, filterByAggregate, noFilter]
    rw [if_pos ha]
    exact List.Sorted.insertionSort_eq hsorted
  rw [hget]
  exact ⟨hb, hlt⟩

theorem event_versioning_amended_witness :
    (getEvents
      (saveEvent (saveEvent (saveEvent emptyStore 1 "saga1" "SagaStarted" "d" 0 none)
        2 "health_x" "H" "d" 1 (some 1)) 3 "saga1" "StepCompleted" "d" 2 none)
      (filterByAggregate "saga1")).map (·.version) = List.range' 1 2 :=
  (event_versioning_amended "saga1"
    (saveEvent (saveEvent (saveEvent emptyStore 1 "saga1" "SagaStarted" "d" 0 none)
      2 "health_x" "H" "d" 1 (some 1)) 3 "saga1" "StepCompleted" "d" 2 none)
    (by decide)
    (AppendsVersioned.saveOwn 3 "StepCompleted" "d" 2 _
      (AppendsVersioned.saveOther 2 "health_x" "H" "d" 1 (some 1) _ (by decide)
        (AppendsVersioned.saveOwn 1 "SagaStarted" "d" 0 _ AppendsVersioned.empty)))).1

/-- C7 counterexample: in the unnamed event-store variant `getAllEvents` is
an alias of `getEvents`, which sorts by per-aggregate version, not by
timestamp.  With aggregate "A" appended at times 5 and 6 (versions 1, 2)
and aggregate "B" appended at time 1 (version 1), the stable sort by
version returns timestamps `[5, 1, 6]` — not ascending. -/
theorem getAllEvents_not_timestamp_sorted_counterexample :
    ((getAllEvents (saveEvent (saveEvent (saveEvent emptyStore 1 "A" "t" "d" 5 none)
        2 "A" "t" "d" 6 none) 3 "B" "t" "d" 1 none) noFilter).map (·.timestamp) = [5, 1, 6]) ∧
    ¬ List.Pairwise (· ≤ ·) ([5, 1, 6] : List Nat) := by
  constructor
  · decide
  · decide

theorem getEvents_version_sorted (s : EventStoreState) (f : EventFilter) :
    List.Pairwise (fun x y : Ev => x.version ≤ y.version) (getEvents s f) := by
  have htot : IsTotal Ev (fun x y => x.version ≤ y.version) :=
    ⟨fun x y => Nat.le_total x.version y.version⟩
  have htrans : IsTrans Ev (fun x y => x.version ≤ y.version) :=
    ⟨fun x y z => Nat.le_trans⟩
  simp only [getEvents]
  exact @List.sorted_insertionSort _ _ _ htot htrans _

end EventStore005

namespace EventStoreSvc

theorem getAllEvents_timestamp_sorted (s : EventStoreState) (f? : Option EventFilter) :
    List.Pairwise (fun x y : Event => x.timestamp ≤ y.timestamp) (getAllEvents s f?) := by
  have htot : IsTotal Event (fun x y => x.timestamp ≤ y.timestamp) :=
    ⟨fun x y => Nat.le_total x.timestamp y.timestamp⟩
  have htrans : IsTrans Event (fun x y => x.timestamp ≤ y.timestamp) :=
    ⟨fun x y z => Nat.le_trans⟩
  simp only [getAllEvents]
  exact @List.sorted_insertionSort _ _ _ htot htrans _

end EventStoreSvc

/-- C7 as amended: `getAllEvents` in event-store.service.ts (with or without
a filter) does return the events of all aggregates sorted by timestamp
ascending; but in the unnamed variant `getAllEvents` delegates to
`getEvents` and is sorted by per-aggregate version instead, which across
aggregates need not be timestamp order (see the counterexample). -/
theorem getAllEvents_sort_order_amended :
    (∀ (s : EventStoreSvc.EventStoreState) (f? : Option EventStoreSvc.EventFilter),
      List.Pairwise (fun x y => x.timestamp ≤ y.timestamp) (EventStoreSvc.getAllEvents s f?)) ∧
    (∀ (s : EventStore005.EventStoreState) (f : EventStore005.EventFilter),
      List.Pairwise (fun x y => x.version ≤ y.version) (EventStore005.getAllEvents s f)) :=
  ⟨EventStoreSvc.getAllEvents_timestamp_sorted,
   fun s f => EventStore005.getEvents_version_sorted s f⟩

namespace Compensation

theorem attemptLoop_zero (script : Nat → Bool) (att : Nat) :
    attemptLoop script 0 att = (false, att, []) := rfl

theorem attemptLoop_one (script : Nat → Bool) (att : Nat) :
    attemptLoop script 1 att =
      if script att then (true, att + 1, []) else (false, att + 1, []) := rfl

theorem attemptLoop_two (script : Nat → Bool) (k att : Nat) :
    attemptLoop script (k + 2) att =
      if script att then (true, att + 1, [])
      else
        ((attemptLoop script (k + 1) (att + 1)).1,
         (attemptLoop script (k + 1) (att + 1)).2.1,
         backoffDelay (att + 1) :: (attemptLoop script (k + 1) (att + 1)).2.2) := rfl

theorem attemptLoop_count_bounds (script : Nat → Bool) :
    ∀ rem att, att ≤ (attemptLoop script rem att).2.1 ∧
      (attemptLoop script rem att).2.1 ≤ att + rem := by
  intro rem
  induction rem with
  | zero => intro att; simp [attemptLoop_zero]
  | succ m ih =>
    intro att
    match m with
    | 0 =>
      rw [attemptLoop_one]
      by_cases hs : script att <;> simp [hs]
    | k + 1 =>
      rw [attemptLoop_two]
      by_cases hs : script att
      · simp [hs]
      · simp only [hs, Bool.false_eq_true, if_false]
        have := ih (att + 1)
        omega

theorem attemptLoop_count_pos (script : Nat → Bool) (rem att : Nat) (h : 1 ≤ rem) :
    att + 1 ≤ (attemptLoop script rem att).2.1 := by
  match rem, h with
  | 1, _ =>
    rw [attemptLoop_one]
    by_cases hs : script att <;> simp [hs]
  | k + 2, _ =>
    rw [attemptLoop_two]
    by_cases hs : script att
    · simp [hs]
    · simp only [hs, Bool.false_eq_true, if_false]
      have := (attemptLoop_count_bounds script (k + 1) (att + 1)).1
      omega

theorem attemptLoop_delays (script : Nat → Bool) :
    ∀ rem att, (attemptLoop script rem att).2.2 =
      (List.range' (att + 1) ((attemptLoop script rem att).2.1 - 1 - att)).map backoffDelay := by
  intro rem
  induction rem with
  | zero => intro att; simp [attemptLoop_zero]
  | succ m ih =>
    intro att
    match m with
    | 0 =>
      rw [attemptLoop_one]
      by_cases hs : script att <;> simp [hs]
    | k + 1 =>
      rw [attemptLoop_two]
      by_cases hs : script att
      · simp [hs]
      · simp only [hs, Bool.false_eq_true, if_false]
        have hge := attemptLoop_count_pos script (k + 1) (att + 1) (by omega)
        have heq : (attemptLoop script (k + 1) (att + 1)).2.1 - 1 - att =
            ((attemptLoop script (k + 1) (att + 1)).2.1 - 1 - (att + 1)) + 1 := by omega
        rw [heq, List.range'_succ, List.map_cons, ih (att + 1)]

theorem executeCompensationAction_id (sa : ScriptedAction) :
    (executeCompensationAction sa).actionId = sa.action.actionId := by
  unfold executeCompensationAction
  split <;> rfl

theorem finalStatus_eq (results : List CompensationResult) :
    (finalStatus results = .COMPLETED ↔ results.all (·.success) = true) ∧
    (finalStatus results = .PARTIAL ↔
      (results.any (·.success) = true ∧ ¬ results.all (·.success) = true)) ∧
    (finalStatus results = .FAILED ↔
      (¬ results.any (·.success) = true ∧ ¬ results.all (·.success) = true)) := by
  unfold finalStatus
  by_cases h1 : results.all (·.success) = true
  · rw [if_pos h1]
    exact ⟨⟨fun _ => h1, fun _ => rfl⟩,
      ⟨fun h => CompensationStatus.noConfusion h, fun ⟨_, hna⟩ => absurd h1 hna⟩,
      ⟨fun h => CompensationStatus.noConfusion h, fun ⟨_, hna⟩ => absurd h1 hna⟩⟩
  · rw [if_neg h1]
    by_cases h2 : results.any (·.success) = true
    · rw [if_pos h2]
      exact ⟨⟨fun h => CompensationStatus.noConfusion h, fun hall => absurd hall h1⟩,
        ⟨fun _ => ⟨h2, h1⟩, fun _ => rfl⟩,
        ⟨fun h => CompensationStatus.noConfusion h, fun ⟨hna, _⟩ => absurd h2 hna⟩⟩
    · rw [if_neg h2]
      exact ⟨⟨fun h => CompensationStatus.noConfusion h, fun hall => absurd hall h1⟩,
        ⟨fun h => CompensationStatus.noConfusion h, fun ⟨ha, _⟩ => absurd ha h2⟩,
        ⟨fun _ => ⟨h2, h1⟩, fun _ => rfl⟩⟩

/-- C9 counterexample: the claim says the wait between attempts is
"min(base * 2^(attempt-1), cap) plus jitter".  The code's delay is exactly
`Math.min(1000 * 2^(attempts-1), 10000)` with no random term: after the
first failed attempt the wait is exactly 1000 ms, so there is no positive
jitter `j` with `delay = min(1000 * 2^0, 10000) + j`.  (The 10% random
jitter exists only in retry.interceptor.ts, not in the compensation
planner.) -/
theorem backoff_no_jitter_counterexample :
    ¬ ∃ j : Nat, 0 < j ∧ backoffDelay 1 = specBackoffWithJitter 1000 10000 1 j := by
  rintro ⟨j, hj, he⟩
  simp only [backoffDelay, specBackoffWithJitter, pow_zero, mul_one] at he
  omega

/-- C9 as amended (no jitter): `executeCompensation` runs the actions in
reverse of the order they were added (result ids are the reversed action
ids); each action is attempted at most `retries` times, with the waits
between attempts being exactly `min(1000 * 2^(attempt-1), 10000)` for
attempts `1 .. attemptsMade - 1` — a deterministic exponential backoff with
no jitter; the final plan status is COMPLETED iff all results succeeded,
PARTIAL iff some but not all did, FAILED iff none did; and the plan
`[deleteNotif, deleteProfile, deleteUser]` (retries = 3, `deleteProfile`
failing twice then succeeding on its 3rd attempt) executes as
`deleteUser, deleteProfile, deleteNotif` and ends COMPLETED. -/
theorem executeCompensation_reverse_retry_status_amended :
    (∀ actions : List ScriptedAction,
      (executeCompensation actions).1.map (·.actionId) =
        actions.reverse.map (·.action.actionId)) ∧
    (∀ (script : Nat → Bool) (retries : Nat),
      (runAttempts script retries).2.1 ≤ retries) ∧
    (∀ (script : Nat → Bool) (retries : Nat),
      (runAttempts script retries).2.2 =
        (List.range' 1 ((runAttempts script retries).2.1 - 1)).map backoffDelay) ∧
    (∀ actions : List ScriptedAction,
      ((executeCompensation actions).2 = .COMPLETED ↔
        (executeCompensation actions).1.all (·.success) = true) ∧
      ((executeCompensation actions).2 = .PARTIAL ↔
        ((executeCompensation actions).1.any (·.success) = true ∧
          ¬ (executeCompensation actions).1.all (·.success) = true)) ∧
      ((executeCompensation actions).2 = .FAILED ↔
        (¬ (executeCompensation actions).1.any (·.success) = true ∧
          ¬ (executeCompensation actions).1.all (·.success) = true))) ∧
    executeCompensation
      [⟨mkCompensationAction "deleteNotif" "USER_SERVICE" "cancel_notification" none (some 3),
          true, fun _ => true⟩,
       ⟨mkCompensationAction "deleteProfile" "USER_SERVICE" "delete_user_profile" none (some 3),
          true, fun k => k == 2⟩,
       ⟨mkCompensationAction "deleteUser" "USER_SERVICE" "delete_user" none (some 3),
          true, fun _ => true⟩] =
      ([⟨"deleteUser", true, false⟩, ⟨"deleteProfile", true, false⟩, ⟨"deleteNotif", true, false⟩],
       .COMPLETED) := by
  refine ⟨?_, ?_, ?_, ?_, ?_⟩
  · intro actions
    simp only [executeCompensation, List.map_map]
    exact List.map_congr_left (fun sa _ => executeCompensationAction_id sa)
  · intro script retries
    have := (attemptLoop_count_bounds script retries 0).2
    simpa [runAttempts] using this
  · intro script retries
    have := attemptLoop_delays script retries 0
    simpa [runAttempts] using this
  · intro actions
    exact finalStatus_eq ((executeCompensation actions).1)
  · decide

end Compensation
